import Mathlib

/-!
Shallow embedding of the DoorPi snapshot actions
(`src/doorpi/actions/snapshot.py`) and of the PJSUA2 dual event firing
helper (`src/doorpi/sipphone/from_pjsua2/__init__.py`).

The filesystem is modelled explicitly: a directory tree is the list of
existing directory paths (each path a list of components), and the
contents of the snapshot base directory are a list of entries, each a
name together with a flag telling whether it is a regular file.
Configuration values (`snapshot_path`, `snapshot_keep`, `last_snapshot`)
live in the same state record.  Python exceptions are modelled by an
explicit error type; a deletion failure during pruning (an `OSError`
caught by `cleanup`) is modelled by a set of file names whose deletion
fails.
-/

namespace DoorPi

/-- A directory entry: its name and whether it is a regular file
(`f.is_file()` in the source); a `false` flag models a subdirectory. -/
structure Entry where
  name : String
  isFile : Bool
deriving DecidableEq, Repr

/-- Errors of the spec's taxonomy that the embedded code can raise.
`configurationError` models the `ValueError("snapshot_path must not be
empty")` raised by `SnapshotAction.get_base_path`; `captureError` models
a failure of the external capture capability (a `requests` or `picamera`
exception). -/
inductive Err where
  | configurationError
  | captureError
deriving DecidableEq, Repr

/-- The state visible to the snapshot actions: the three configuration
slots, the set of existing directories, and the entries directly under
the snapshot base directory. -/
structure SysState where
  snapshotPath : String
  snapshotKeep : Int
  lastSnapshot : Option String
  dirs : List (List String)
  baseEntries : List Entry
deriving DecidableEq, Repr

/-- Lexicographic comparison of character lists by code point, the
order Python uses to compare strings (and `pathlib` to compare paths
with a common parent). -/
def charListLe : List Char → List Char → Bool
  | [], _ => true
  | _ :: _, [] => false
  | a :: as, b :: bs =>
      if a < b then true else if b < a then false else charListLe as bs

/-- Python's `<=` on strings: lexicographic by code point. -/
def strLe (a b : String) : Bool := charListLe a.data b.data

/-- `strLe` as a relation, used as the sorting order of `sorted(...)`. -/
def strLeP (a b : String) : Prop := strLe a b = true

instance : DecidableRel strLeP :=
  fun a b => inferInstanceAs (Decidable (strLe a b = true))

/-- Split a character list at `/` separators (helper for the path
component view `pathlib.Path(s)` exposes). -/
def splitSlash : List Char → List Char → List String
  | [], cur => [String.mk cur.reverse]
  | c :: rest, cur =>
      if c = '/' then String.mk cur.reverse :: splitSlash rest []
      else splitSlash rest (c :: cur)

/-- `pathlib.Path(s)`: the path's nonempty components. -/
def parseComponents (s : String) : List String :=
  (splitSlash s.data []).filter (· ≠ "")

/-- `str(path)` on a path given by its components. -/
def pathStr (p : List String) : String :=
  String.intercalate "/" p

/-- The directories `Path(p).mkdir(parents=True, ...)` brings into
existence: every nonempty initial segment of `p`'s components. -/
def ancestorDirs (p : List String) : List (List String) :=
  (List.range p.length).map (fun i => p.take (i + 1))

/-- One step of directory creation with `exist_ok=True`: add `q` to the
tree unless it already exists. -/
def mkdirStep (ds : List (List String)) (q : List String) : List (List String) :=
  if q ∈ ds then ds else ds ++ [q]

/-- `path.mkdir(parents=True, exist_ok=True)`: create `p` and all its
ancestors, skipping the ones that already exist. -/
def mkdirParents (ds : List (List String)) (p : List String) : List (List String) :=
  (ancestorDirs p).foldl mkdirStep ds

/-- `SnapshotAction.get_base_path`: reads `snapshot_path`, raises a
configuration error if it is empty or unset (the unset case is the empty
string), otherwise creates the directory (with parents, idempotently)
and returns it.  The second component is the state after the call, which
is unchanged on the error path. -/
def get_base_path (st : SysState) : Except Err (List String) × SysState :=
  if st.snapshotPath = "" then (.error .configurationError, st)
  else
    let p := parseComponents st.snapshotPath
    (.ok p, { st with dirs := mkdirParents st.dirs p })

/-- The clock value `datetime.datetime.now()` returns: second-resolution
fields plus the sub-second microsecond field, which the source's format
string does not print. -/
structure DateTime where
  year : Nat
  month : Nat
  day : Nat
  hour : Nat
  minute : Nat
  second : Nat
  microsecond : Nat
deriving DecidableEq, Repr

/-- Zero-pad to two digits, as `%m`, `%d`, `%H`, `%M`, `%S` do. -/
def pad2 (n : Nat) : String :=
  if n < 10 then "0" ++ toString n else toString n

/-- Zero-pad to four digits, as `%Y` does. -/
def pad4 (n : Nat) : String :=
  if n < 10 then "000" ++ toString n
  else if n < 100 then "00" ++ toString n
  else if n < 1000 then "0" ++ toString n
  else toString n

/-- `now.strftime("%Y-%m-%d %H:%M:%S.jpg")`: the snapshot file name. -/
def snapshotFileName (t : DateTime) : String :=
  pad4 t.year ++ "-" ++ pad2 t.month ++ "-" ++ pad2 t.day ++ " " ++
    pad2 t.hour ++ ":" ++ pad2 t.minute ++ ":" ++ pad2 t.second ++ ".jpg"

/-- `SnapshotAction.get_next_path`: base path joined with the formatted
timestamp; the resulting path is written to the `last_snapshot`
configuration slot before it is returned. -/
def get_next_path (now : DateTime) (st : SysState) : Except Err (List String) × SysState :=
  match get_base_path st with
  | (.error e, st') => (.error e, st')
  | (.ok base, st') =>
      let p := base ++ [snapshotFileName now]
      (.ok p, { st' with lastSnapshot := some (pathStr p) })

/-- The pure core of `SnapshotAction.list_all`: the names of the regular
files among the entries, sorted ascending (`sorted(f for f in iterdir()
if f.is_file())`; all paths share the base directory, so comparing the
paths is comparing the file names). -/
def list_all_entries (es : List Entry) : List String :=
  List.insertionSort strLeP ((es.filter (·.isFile)).map (·.name))

/-- `SnapshotAction.list_all`: resolves the base directory (creating it
if needed) and lists the regular files in it, sorted ascending. -/
def list_all (st : SysState) : Except Err (List String) × SysState :=
  match get_base_path st with
  | (.error e, st') => (.error e, st')
  | (.ok _, st') => (.ok (list_all_entries st'.baseEntries), st')

/-- `fi.unlink()` wrapped in `try ... except OSError`: if the deletion
of `n` fails (`n ∈ fails`) the directory is unchanged and the failure is
only logged; otherwise the entry named `n` is removed. -/
def tryUnlink (fails : List String) (es : List Entry) (n : String) : List Entry :=
  if n ∈ fails then es else es.filter (fun e => e.name ≠ n)

/-- The deletion loop of `SnapshotAction.cleanup`: attempt to unlink
each candidate in turn, independently. -/
def deleteNames (fails : List String) (cands : List String) (es : List Entry) : List Entry :=
  cands.foldl (tryUnlink fails) es

/-- The files `cleanup` will try to delete: `files[0:-keep]` for
`keep > 0`, i.e. all but the last `keep` of the sorted listing. -/
def pruneCandidates (keep : Int) (es : List Entry) : List String :=
  let files := list_all_entries es
  files.take (files.length - keep.toNat)

/-- `SnapshotAction.cleanup`: read `snapshot_keep`; return immediately
if it is ≤ 0; otherwise list the files and try to delete all but the
last `keep`, each deletion attempted independently.  The error
component is `some e` when an uncaught exception escapes (only the
configuration error of `get_base_path` can; `OSError` from `unlink` is
caught inside the loop). -/
def cleanup (fails : List String) (st : SysState) : Option Err × SysState :=
  if st.snapshotKeep ≤ 0 then (none, st)
  else
    match list_all st with
    | (.error e, st') => (some e, st')
    | (.ok files, st') =>
        let cands := files.take (files.length - st.snapshotKeep.toNat)
        (none, { st' with baseEntries := deleteNames fails cands st'.baseEntries })

/-- Writing an artifact at a fresh name appends a file entry; writing
over an existing name truncates the file and leaves the entry set
unchanged. -/
def addFile (n : String) (es : List Entry) : List Entry :=
  if es.any (fun e => e.name = n) then es else es ++ [⟨n, true⟩]

/-- `URLSnapshotAction.__call__`: fetch the URL (`requests.get`; a
failure aborts before any path is allocated), then allocate the next
path, write the response body there, and prune.  `fetchOk` tells
whether the external fetch capability succeeds. -/
def urlSnapshotCall (fetchOk : Bool) (now : DateTime) (fails : List String)
    (st : SysState) : Option Err × SysState :=
  if fetchOk = false then (some .captureError, st)
  else
    match get_next_path now st with
    | (.error e, st') => (some e, st')
    | (.ok _, st') =>
        let st2 := { st' with baseEntries := addFile (snapshotFileName now) st'.baseEntries }
        cleanup fails st2

/-- `PicamSnapshotAction.__call__`: open the camera (`PiCamera()`; a
failure aborts before any path is allocated), allocate the next path,
capture into it (`cam.capture`; on failure no file is produced, per the
spec's abstract capture contract), and prune. -/
def picamSnapshotCall (cameraOk captureOk : Bool) (now : DateTime) (fails : List String)
    (st : SysState) : Option Err × SysState :=
  if cameraOk = false then (some .captureError, st)
  else
    match get_next_path now st with
    | (.error e, st') => (some e, st')
    | (.ok _, st') =>
        if captureOk = false then (some .captureError, st')
        else
          let st2 := { st' with baseEntries := addFile (snapshotFileName now) st'.baseEntries }
          cleanup fails st2

/-- `EVENT_SOURCE` of the PJSUA2 module. -/
def EVENT_SOURCE : String := "sipphone.pjsua"

/-- One event delivery observed by a subscriber: the event's name, its
source, its extra payload, and whether it was delivered synchronously. -/
structure FiredEvent where
  name : String
  source : String
  extra : List (String × String)
  sync : Bool
deriving DecidableEq, Repr

/-- The extra mapping `fire_event` builds:
`{"remote_uri": remote_uri} if remote_uri is not None else {}`. -/
def extraOf : Option String → List (String × String)
  | some u => [("remote_uri", u)]
  | none => []

/-- `fire_event` of the PJSUA2 module: builds the extra mapping from the
optional `remote_uri`, always fires the base event asynchronously, and
unless `async_only` also fires the synchronous shadow event, whose name
is the base name suffixed with `"_S"`.  The result is the sequence of
deliveries a recording subscriber of all these events observes. -/
def fire_event (event_name : String) (async_only : Bool)
    (remote_uri : Option String) : List FiredEvent :=
  let extra := extraOf remote_uri
  [⟨event_name, EVENT_SOURCE, extra, false⟩] ++
    (if async_only then [] else [⟨event_name ++ "_S", EVENT_SOURCE, extra, true⟩])

/-! ## Order facts about the string comparison -/

theorem charListLe_total : ∀ as bs : List Char,
    charListLe as bs = true ∨ charListLe bs as = true := by
  intro as
  induction as with
  | nil => intro bs; left; rfl
  | cons a as ih =>
    intro bs
    cases bs with
    | nil => right; rfl
    | cons b bs =>
      rcases lt_trichotomy a b with h | h | h
      · left; simp [charListLe, h]
      · subst h
        rcases ih bs with h' | h'
        · left; simp [charListLe, h']
        · right; simp [charListLe, h']
      · right; simp [charListLe, h]

theorem charListLe_trans : ∀ as bs cs : List Char,
    charListLe as bs = true → charListLe bs cs = true → charListLe as cs = true := by
  intro as
  induction as with
  | nil => intro bs cs _ _; rfl
  | cons a as ih =>
    intro bs cs h1 h2
    cases bs with
    | nil => simp [charListLe] at h1
    | cons b bs =>
      cases cs with
      | nil => simp [charListLe] at h2
      | cons c cs =>
        rcases lt_trichotomy a b with hab | hab | hab
        · rcases lt_trichotomy b c with hbc | hbc | hbc
          · simp [charListLe, lt_trans hab hbc]
          · subst hbc; simp [charListLe, hab]
          · exfalso
            simp [charListLe, hbc, not_lt_of_gt hbc] at h2
        · subst hab
          rcases lt_trichotomy a c with hac | hac | hac
          · simp [charListLe, hac]
          · subst hac
            simp only [charListLe, lt_irrefl, if_neg (lt_irrefl a)] at h1 h2 ⊢
            simp at h1 h2
            exact ih bs cs h1 h2
          · exfalso
            simp [charListLe, hac, not_lt_of_gt hac] at h2
        · exfalso
          simp [charListLe, hab, not_lt_of_gt hab] at h1

theorem charListLe_antisymm : ∀ as bs : List Char,
    charListLe as bs = true → charListLe bs as = true → as = bs := by
  intro as
  induction as with
  | nil =>
    intro bs _ h2
    cases bs with
    | nil => rfl
    | cons b bs => simp [charListLe] at h2
  | cons a as ih =>
    intro bs h1 h2
    cases bs with
    | nil => simp [charListLe] at h1
    | cons b bs =>
      rcases lt_trichotomy a b with hab | hab | hab
      · exfalso; simp [charListLe, hab, not_lt_of_gt hab] at h2
      · subst hab
        simp only [charListLe, if_neg (lt_irrefl a)] at h1 h2
        exact congrArg (a :: ·) (ih bs h1 h2)
      · exfalso; simp [charListLe, hab, not_lt_of_gt hab] at h1

theorem strLeP_total : ∀ a b : String, strLeP a b ∨ strLeP b a :=
  fun a b => charListLe_total a.data b.data

theorem strLeP_trans : ∀ a b c : String, strLeP a b → strLeP b c → strLeP a c :=
  fun a b c => charListLe_trans a.data b.data c.data

theorem strLeP_antisymm : ∀ a b : String, strLeP a b → strLeP b a → a = b := by
  intro a b h1 h2
  cases a; cases b
  exact congrArg String.mk (charListLe_antisymm _ _ h1 h2)

/-! ## Helper lemmas about the directory listing and the deletion loop -/

theorem list_all_entries_sorted (es : List Entry) :
    (list_all_entries es).Sorted strLeP := by
  haveI : IsTotal String strLeP := ⟨strLeP_total⟩
  haveI : IsTrans String strLeP := ⟨strLeP_trans⟩
  exact List.sorted_insertionSort strLeP _

theorem list_all_entries_perm (es : List Entry) :
    List.Perm (list_all_entries es) ((es.filter (·.isFile)).map (·.name)) :=
  List.perm_insertionSort strLeP _

theorem deleteNames_eq (fails : List String) : ∀ (cands : List String) (es : List Entry),
    deleteNames fails cands es
      = es.filter (fun e => ¬(e.name ∈ cands ∧ e.name ∉ fails)) := by
  intro cands
  induction cands with
  | nil =>
    intro es
    simp [deleteNames]
  | cons n ns ih =>
    intro es
    have h1 : deleteNames fails (n :: ns) es = deleteNames fails ns (tryUnlink fails es n) := by
      simp [deleteNames]
    rw [h1, ih]
    unfold tryUnlink
    by_cases hn : n ∈ fails
    · rw [if_pos hn]
      apply List.filter_congr
      intro e _
      by_cases he : e.name = n
      · simp [he, hn]
      · simp [he, hn]
    · rw [if_neg hn, List.filter_filter]
      apply List.filter_congr
      intro e _
      by_cases he : e.name = n
      · simp [he, hn]
      · simp [he]

theorem list_all_entries_filter (es : List Entry) (p : String → Bool) :
    list_all_entries (es.filter (fun e => p e.name))
      = (list_all_entries es).filter p := by
  haveI : IsTotal String strLeP := ⟨strLeP_total⟩
  haveI : IsTrans String strLeP := ⟨strLeP_trans⟩
  haveI : IsAntisymm String strLeP := ⟨strLeP_antisymm⟩
  apply List.eq_of_perm_of_sorted (r := strLeP)
  · have h1 : List.Perm (list_all_entries (es.filter (fun e => p e.name)))
        (((es.filter (fun e => p e.name)).filter (·.isFile)).map (·.name)) :=
      list_all_entries_perm _
    have h2 : ((es.filter (fun e => p e.name)).filter (·.isFile)).map (·.name)
        = ((es.filter (·.isFile)).map (·.name)).filter p := by
      rw [List.filter_filter, List.filter_map]
      show _ = List.map _ (List.filter (fun e => p e.name) (List.filter (·.isFile) es))
      rw [List.filter_filter]
      congr 1
      apply List.filter_congr
      intro e _
      exact Bool.and_comm _ _
    have h3 : List.Perm (((es.filter (·.isFile)).map (·.name)).filter p)
        ((list_all_entries es).filter p) :=
      ((list_all_entries_perm es).filter p).symm
    exact (h2 ▸ h1).trans h3
  · exact list_all_entries_sorted _
  · exact List.Pairwise.filter p (list_all_entries_sorted es)

theorem filter_not_mem_take {S : List String} (hnd : S.Nodup) (k : Nat) :
    S.filter (fun x => x ∉ S.take k) = S.drop k := by
  have hS : (S.take k ++ S.drop k).filter (fun x => x ∉ S.take k)
      = S.filter (fun x => x ∉ S.take k) := by
    rw [List.take_append_drop]
  rw [← hS, List.filter_append]
  have h1 : (S.take k).filter (fun x => x ∉ S.take k) = [] := by
    apply List.filter_eq_nil_iff.mpr
    intro a ha
    simp [ha]
  have h2 : (S.drop k).filter (fun x => x ∉ S.take k) = S.drop k := by
    apply List.filter_eq_self.mpr
    intro a ha
    have hmem : a ∉ S.take k :=
      fun hmem => List.disjoint_take_drop hnd (le_refl k) hmem ha
    simp [hmem]
  rw [h1, h2, List.nil_append]

theorem list_all_entries_nodup {es : List Entry}
    (hnd : (es.map (·.name)).Nodup) : (list_all_entries es).Nodup := by
  refine (list_all_entries_perm es).nodup_iff.mpr ?_
  exact hnd.sublist ((List.filter_sublist (p := (·.isFile)) es).map (·.name))

/-! ## Helper lemmas about directory creation -/

theorem mem_foldl_mkdirStep {r : List String} :
    ∀ (qs : List (List String)) (ds : List (List String)),
      r ∈ ds → r ∈ qs.foldl mkdirStep ds := by
  intro qs
  induction qs with
  | nil => intro ds h; exact h
  | cons q qs ih =>
    intro ds h
    apply ih
    unfold mkdirStep
    by_cases hq : q ∈ ds
    · rwa [if_pos hq]
    · rw [if_neg hq]; exact List.mem_append_left _ h

theorem mem_foldl_mkdirStep_self :
    ∀ (qs : List (List String)) (ds : List (List String)), ∀ q ∈ qs,
      q ∈ qs.foldl mkdirStep ds := by
  intro qs
  induction qs with
  | nil => intro ds q hq; cases hq
  | cons a qs ih =>
    intro ds q hq
    rcases List.mem_cons.mp hq with rfl | hq'
    · apply mem_foldl_mkdirStep qs
      unfold mkdirStep
      by_cases ha : q ∈ ds
      · rwa [if_pos ha]
      · rw [if_neg ha]
        exact List.mem_append_right _ (List.mem_singleton.mpr rfl)
    · exact ih _ q hq'

theorem foldl_mkdirStep_id :
    ∀ (qs : List (List String)) (ds : List (List String)),
      (∀ q ∈ qs, q ∈ ds) → qs.foldl mkdirStep ds = ds := by
  intro qs
  induction qs with
  | nil => intro ds _; rfl
  | cons a qs ih =>
    intro ds h
    have ha : a ∈ ds := h a (List.mem_cons_self a qs)
    show List.foldl mkdirStep (mkdirStep ds a) qs = ds
    rw [mkdirStep, if_pos ha]
    exact ih ds (fun q hq => h q (List.mem_cons_of_mem a hq))

theorem mem_mkdirParents_ancestor (ds : List (List String)) (p : List String) :
    ∀ q ∈ ancestorDirs p, q ∈ mkdirParents ds p :=
  fun q hq => mem_foldl_mkdirStep_self _ ds q hq

theorem mkdirParents_idem (ds : List (List String)) (p : List String) :
    mkdirParents (mkdirParents ds p) p = mkdirParents ds p :=
  foldl_mkdirStep_id _ _ (mem_mkdirParents_ancestor ds p)

theorem self_mem_ancestorDirs (p : List String) (hp : p ≠ []) :
    p ∈ ancestorDirs p := by
  unfold ancestorDirs
  apply List.mem_map.mpr
  have hlen : 0 < p.length := List.length_pos.mpr hp
  refine ⟨p.length - 1, List.mem_range.mpr (by omega), ?_⟩
  rw [Nat.sub_add_cancel hlen]
  exact List.take_length p

/-! ## Characterizations of `get_base_path` and `cleanup` -/

theorem get_base_path_ok {st : SysState} (hp : st.snapshotPath ≠ "") :
    get_base_path st
      = (.ok (parseComponents st.snapshotPath),
         { st with dirs := mkdirParents st.dirs (parseComponents st.snapshotPath) }) := by
  unfold get_base_path
  rw [if_neg hp]

theorem cleanup_pos_eq {st : SysState} (fails : List String)
    (hk : 0 < st.snapshotKeep) (hp : st.snapshotPath ≠ "") :
    cleanup fails st
      = (none,
         { st with
             dirs := mkdirParents st.dirs (parseComponents st.snapshotPath),
             baseEntries := st.baseEntries.filter
               (fun e => ¬(e.name ∈ pruneCandidates st.snapshotKeep st.baseEntries
                            ∧ e.name ∉ fails)) }) := by
  unfold cleanup
  rw [if_neg (not_le.mpr hk)]
  unfold list_all
  rw [get_base_path_ok hp]
  simp only [deleteNames_eq, pruneCandidates]

/-! ## Claim theorems -/

/-- C2: for every base event name `x`, `fire_event x` with
`async_only = false` fires exactly the two event names `x` and
`x ++ "_S"` (the shadow name is always the base name plus the fixed
suffix `"_S"`), and with `async_only = true` only `x` is fired. -/
theorem fire_event_dual_names (x : String) (r : Option String) :
    ((fire_event x false r).map (·.name) = [x, x ++ "_S"])
      ∧ ((fire_event x true r).map (·.name) = [x]) :=
  ⟨rfl, rfl⟩

/-- C9: the extra payload delivered with every event fired by
`fire_event` is a string-to-string mapping, never an absent value: the
empty mapping when no remote URI is supplied, and the mapping carrying
the URI under the `"remote_uri"` key when one is. -/
theorem fire_event_extra_total (n : String) (a : Bool) (r : Option String)
    (ev : FiredEvent) (hev : ev ∈ fire_event n a r) :
    (r = none → ev.extra = [])
      ∧ (∀ u, r = some u → ev.extra = [("remote_uri", u)]) := by
  have hx : ev.extra = extraOf r := by
    unfold fire_event at hev
    rcases List.mem_append.mp hev with h | h
    · rw [List.mem_singleton.mp h]
    · cases a with
      | true => simp at h
      | false => rw [List.mem_singleton.mp h]
  refine ⟨fun hr => ?_, fun u hr => ?_⟩
  · rw [hx, hr]; rfl
  · rw [hx, hr]; rfl

/-- Witness for C9 at a concrete invocation: the base event fired by
`fire_event "x" true none` carries the empty extra mapping. -/
theorem fire_event_extra_total_witness :
    (⟨"x", EVENT_SOURCE, [], false⟩ : FiredEvent).extra = [] :=
  (fire_event_extra_total "x" true none ⟨"x", EVENT_SOURCE, [], false⟩
    (by decide)).1 rfl

/-- C5: `list_all` resolves the base directory and returns the names of
the regular files directly under it — subdirectories excluded — sorted
ascending, computed purely from the directory state passed in (the
model recomputes it from `st` on every call; there is no cache). -/
theorem list_all_spec (st : SysState) (hp : st.snapshotPath ≠ "") :
    (list_all st).1 = .ok (list_all_entries st.baseEntries)
    ∧ (list_all_entries st.baseEntries).Sorted strLeP
    ∧ (∀ n, n ∈ list_all_entries st.baseEntries
          ↔ ∃ e ∈ st.baseEntries, e.isFile ∧ e.name = n)
    ∧ List.Perm (list_all_entries st.baseEntries)
        ((st.baseEntries.filter (·.isFile)).map (·.name)) := by
  refine ⟨?_, list_all_entries_sorted _, fun n => ?_, list_all_entries_perm _⟩
  · unfold list_all
    rw [get_base_path_ok hp]
  · rw [(list_all_entries_perm st.baseEntries).mem_iff]
    simp only [List.mem_map, List.mem_filter]
    constructor
    · rintro ⟨e, ⟨he, hf⟩, hn⟩
      exact ⟨e, he, hf, hn⟩
    · rintro ⟨e, he, hf, hn⟩
      exact ⟨e, ⟨he, hf⟩, hn⟩

/-- Witness for C5 at a concrete state: a directory holding files
`"b"`, `"a"` and a subdirectory `"z"` lists as `["a", "b"]`. -/
theorem list_all_spec_witness :
    (list_all ⟨"snaps", 2, none, [], [⟨"b", true⟩, ⟨"z", false⟩, ⟨"a", true⟩]⟩).1
      = .ok ["a", "b"] := by
  have h := list_all_spec ⟨"snaps", 2, none, [], [⟨"b", true⟩, ⟨"z", false⟩, ⟨"a", true⟩]⟩
    (by decide)
  exact h.1.trans (congrArg Except.ok (by decide))

/-- C3: `get_base_path` on an empty (or unset, which reads as empty)
configured path fails with the configuration error and changes nothing;
on a nonempty path it returns that path after creating the directory
and all its ancestors, and calling it again on the resulting state
succeeds with the same answer and changes nothing. -/
theorem get_base_path_spec (st : SysState) :
    (st.snapshotPath = "" → get_base_path st = (.error .configurationError, st))
    ∧ (st.snapshotPath ≠ "" →
        (get_base_path st).1 = .ok (parseComponents st.snapshotPath)
        ∧ (∀ q ∈ ancestorDirs (parseComponents st.snapshotPath),
            q ∈ (get_base_path st).2.dirs)
        ∧ (parseComponents st.snapshotPath ≠ [] →
            parseComponents st.snapshotPath ∈ (get_base_path st).2.dirs)
        ∧ get_base_path (get_base_path st).2
            = ((get_base_path st).1, (get_base_path st).2)) := by
  constructor
  · intro h
    unfold get_base_path
    rw [if_pos h]
  · intro hp
    rw [get_base_path_ok hp]
    refine ⟨rfl, ?_, ?_, ?_⟩
    · exact fun q hq => mem_mkdirParents_ancestor st.dirs _ q hq
    · intro hne
      exact mem_mkdirParents_ancestor st.dirs _ _
        (self_mem_ancestorDirs _ hne)
    · rw [get_base_path_ok (show (({ st with
          dirs := mkdirParents st.dirs (parseComponents st.snapshotPath) } :
            SysState)).snapshotPath ≠ "" from hp)]
      simp [mkdirParents_idem]

/-- Witness for C3 at concrete states: the empty path fails and leaves
the (empty) directory tree alone; the path `"a/b"` is created together
with its parent `"a"`. -/
theorem get_base_path_spec_witness :
    get_base_path ⟨"", 2, none, [], []⟩ = (.error .configurationError, ⟨"", 2, none, [], []⟩)
    ∧ ["a", "b"] ∈ (get_base_path ⟨"a/b", 2, none, [], []⟩).2.dirs
    ∧ ["a"] ∈ (get_base_path ⟨"a/b", 2, none, [], []⟩).2.dirs := by
  refine ⟨(get_base_path_spec ⟨"", 2, none, [], []⟩).1 rfl, ?_, ?_⟩
  · have h := (get_base_path_spec ⟨"a/b", 2, none, [], []⟩).2 (by decide)
    have := h.2.2.1 (by decide)
    simpa using this
  · have h := (get_base_path_spec ⟨"a/b", 2, none, [], []⟩).2 (by decide)
    have := h.2.1 ["a"] (by decide)
    simpa using this

/-- C1: with a positive `snapshot_keep` N, distinct file names, and
M > N files present, `cleanup` with no deletion failures leaves exactly
the N files with the lexicographically greatest names: the listing
afterwards is the old sorted listing with its first M − N names — the
lexicographically smallest — removed, and it has length N. -/
theorem cleanup_deletes_oldest (st : SysState)
    (hk : 0 < st.snapshotKeep) (hp : st.snapshotPath ≠ "")
    (hnd : (st.baseEntries.map (·.name)).Nodup)
    (hM : st.snapshotKeep.toNat < (list_all_entries st.baseEntries).length) :
    list_all_entries ((cleanup [] st).2.baseEntries)
        = (list_all_entries st.baseEntries).drop
            ((list_all_entries st.baseEntries).length - st.snapshotKeep.toNat)
    ∧ (list_all_entries ((cleanup [] st).2.baseEntries)).length
        = st.snapshotKeep.toNat := by
  have hndS : (list_all_entries st.baseEntries).Nodup := list_all_entries_nodup hnd
  have h1 : (cleanup [] st).2.baseEntries
      = st.baseEntries.filter (fun e =>
          e.name ∉ (list_all_entries st.baseEntries).take
            ((list_all_entries st.baseEntries).length - st.snapshotKeep.toNat)) := by
    rw [cleanup_pos_eq [] hk hp]
    show st.baseEntries.filter _ = st.baseEntries.filter _
    apply List.filter_congr
    intro e _
    simp [pruneCandidates]
  have h2 := list_all_entries_filter st.baseEntries (fun n =>
    decide (n ∉ (list_all_entries st.baseEntries).take
      ((list_all_entries st.baseEntries).length - st.snapshotKeep.toNat)))
  have h3 := filter_not_mem_take hndS
    ((list_all_entries st.baseEntries).length - st.snapshotKeep.toNat)
  have hmain : list_all_entries ((cleanup [] st).2.baseEntries)
      = (list_all_entries st.baseEntries).drop
          ((list_all_entries st.baseEntries).length - st.snapshotKeep.toNat) :=
    (congrArg list_all_entries h1).trans (h2.trans h3)
  refine ⟨hmain, ?_⟩
  rw [hmain, List.length_drop]
  omega

/-- Witness for C1, the spec's scenario: `keepCount = 2` and files
`t1 < t2 < t3 < t4`; pruning deletes `t1, t2` and leaves `t3, t4`. -/
theorem cleanup_deletes_oldest_witness :
    list_all_entries ((cleanup []
      ⟨"snaps", 2, none, [],
        [⟨"t1", true⟩, ⟨"t2", true⟩, ⟨"t3", true⟩, ⟨"t4", true⟩]⟩).2.baseEntries)
      = ["t3", "t4"] := by
  have h := cleanup_deletes_oldest
    ⟨"snaps", 2, none, [], [⟨"t1", true⟩, ⟨"t2", true⟩, ⟨"t3", true⟩, ⟨"t4", true⟩]⟩
    (by decide) (by decide) (by decide) (by decide)
  exact h.1.trans (by decide)

/-- C4: with a positive keep count, each deletion is attempted
independently: `cleanup` removes exactly the candidate files whose
deletion succeeds — a failing file (one in `fails`) stays, but does not
prevent the other candidates from being deleted — and no failure
propagates out (the error component is `none`; in the source the
`OSError` is caught inside the loop and only logged). -/
theorem cleanup_failure_isolation (fails : List String) (st : SysState)
    (hk : 0 < st.snapshotKeep) (hp : st.snapshotPath ≠ "") :
    (cleanup fails st).1 = none
    ∧ (cleanup fails st).2.baseEntries
        = st.baseEntries.filter
            (fun e => ¬(e.name ∈ pruneCandidates st.snapshotKeep st.baseEntries
                         ∧ e.name ∉ fails)) := by
  rw [cleanup_pos_eq fails hk hp]
  exact ⟨rfl, rfl⟩

/-- Witness for C4: `keepCount = 1`, files `t1 < t2 < t3`, and the
deletion of `t2` fails: `t1` is still deleted, `t2` survives only
because its own deletion failed, `t3` is kept, and no error escapes. -/
theorem cleanup_failure_isolation_witness :
    (cleanup ["t2"]
      ⟨"snaps", 1, none, [], [⟨"t1", true⟩, ⟨"t2", true⟩, ⟨"t3", true⟩]⟩).1 = none
    ∧ (cleanup ["t2"]
      ⟨"snaps", 1, none, [], [⟨"t1", true⟩, ⟨"t2", true⟩, ⟨"t3", true⟩]⟩).2.baseEntries
      = [⟨"t2", true⟩, ⟨"t3", true⟩] := by
  have h := cleanup_failure_isolation ["t2"]
    ⟨"snaps", 1, none, [], [⟨"t1", true⟩, ⟨"t2", true⟩, ⟨"t3", true⟩]⟩
    (by decide) (by decide)
  exact ⟨h.1, h.2.trans (by decide)⟩

/-- C8: for `keepCount ≤ 0`, `cleanup` is a complete no-op — it returns
before listing, so the whole state (directory contents included) is
unchanged and no deletion is attempted; and for a positive keep count
with at most `keepCount` files present, no file is deleted. -/
theorem cleanup_noop (fails : List String) (st : SysState) :
    (st.snapshotKeep ≤ 0 → cleanup fails st = (none, st))
    ∧ (0 < st.snapshotKeep →
        (list_all_entries st.baseEntries).length ≤ st.snapshotKeep.toNat →
        (cleanup fails st).2.baseEntries = st.baseEntries) := by
  constructor
  · intro h
    unfold cleanup
    rw [if_pos h]
  · intro hk hle
    by_cases hp : st.snapshotPath = ""
    · unfold cleanup list_all get_base_path
      rw [if_neg (not_le.mpr hk), if_pos hp]
    · rw [cleanup_pos_eq fails hk hp]
      show st.baseEntries.filter _ = st.baseEntries
      apply List.filter_eq_self.mpr
      intro e _
      have hc : pruneCandidates st.snapshotKeep st.baseEntries = [] := by
        unfold pruneCandidates
        simp [Nat.sub_eq_zero_of_le hle]
      simp [hc]

/-- Witness for C8: with `keepCount = 0` and a failing file around,
`cleanup` changes nothing at all; with `keepCount = 5` and only two
files, nothing is deleted. -/
theorem cleanup_noop_witness :
    cleanup ["t1"] ⟨"snaps", 0, none, [], [⟨"t1", true⟩, ⟨"t2", true⟩]⟩
      = (none, ⟨"snaps", 0, none, [], [⟨"t1", true⟩, ⟨"t2", true⟩]⟩)
    ∧ (cleanup [] ⟨"snaps", 5, none, [], [⟨"t1", true⟩, ⟨"t2", true⟩]⟩).2.baseEntries
      = [⟨"t1", true⟩, ⟨"t2", true⟩] := by
  constructor
  · exact (cleanup_noop ["t1"] ⟨"snaps", 0, none, [], [⟨"t1", true⟩, ⟨"t2", true⟩]⟩).1
      (by decide)
  · exact (cleanup_noop [] ⟨"snaps", 5, none, [], [⟨"t1", true⟩, ⟨"t2", true⟩]⟩).2
      (by decide) (by decide)

/-- C6: with a nonempty base path configured, `get_next_path` returns
`base / <second-resolution timestamp>.jpg`, records exactly that path
in the `last_snapshot` slot, gives the same path to any two calls whose
clock values agree down to the second (they may differ in the
microsecond field, which the format does not print), and on sequential
calls the slot holds the most recent path (last write wins). -/
theorem get_next_path_spec (now : DateTime) (st : SysState)
    (hp : st.snapshotPath ≠ "") :
    (get_next_path now st).1
        = .ok (parseComponents st.snapshotPath ++ [snapshotFileName now])
    ∧ (get_next_path now st).2.lastSnapshot
        = some (pathStr (parseComponents st.snapshotPath ++ [snapshotFileName now]))
    ∧ (∀ t' : DateTime, t'.year = now.year → t'.month = now.month →
        t'.day = now.day → t'.hour = now.hour → t'.minute = now.minute →
        t'.second = now.second →
        (get_next_path t' st).1 = (get_next_path now st).1)
    ∧ (∀ t' : DateTime,
        (get_next_path t' (get_next_path now st).2).2.lastSnapshot
          = some (pathStr (parseComponents st.snapshotPath ++ [snapshotFileName t']))) := by
  have hfmt : ∀ t' : DateTime, t'.year = now.year → t'.month = now.month →
      t'.day = now.day → t'.hour = now.hour → t'.minute = now.minute →
      t'.second = now.second → snapshotFileName t' = snapshotFileName now := by
    intro t' h1 h2 h3 h4 h5 h6
    unfold snapshotFileName
    rw [h1, h2, h3, h4, h5, h6]
  refine ⟨?_, ?_, ?_, ?_⟩
  · unfold get_next_path
    rw [get_base_path_ok hp]
  · unfold get_next_path
    rw [get_base_path_ok hp]
  · intro t' h1 h2 h3 h4 h5 h6
    unfold get_next_path
    rw [get_base_path_ok hp, hfmt t' h1 h2 h3 h4 h5 h6]
  · intro t'
    have hstep : (get_next_path now st).2
        = { st with
              dirs := mkdirParents st.dirs (parseComponents st.snapshotPath),
              lastSnapshot := some (pathStr
                (parseComponents st.snapshotPath ++ [snapshotFileName now])) } := by
      unfold get_next_path
      rw [get_base_path_ok hp]
    rw [hstep]
    unfold get_next_path
    rw [get_base_path_ok (show ({ st with
        dirs := mkdirParents st.dirs (parseComponents st.snapshotPath),
        lastSnapshot := some (pathStr
          (parseComponents st.snapshotPath ++ [snapshotFileName now])) } :
            SysState).snapshotPath ≠ "" from hp)]

/-- Witness for C6: two clock values inside the same second (different
microseconds) resolve to the same path, and the slot records it. -/
theorem get_next_path_spec_witness :
    (get_next_path ⟨2024, 1, 2, 3, 4, 5, 999⟩ ⟨"snaps", 2, none, [], []⟩).1
      = (get_next_path ⟨2024, 1, 2, 3, 4, 5, 6⟩ ⟨"snaps", 2, none, [], []⟩).1
    ∧ (get_next_path ⟨2024, 1, 2, 3, 4, 5, 6⟩ ⟨"snaps", 2, none, [], []⟩).2.lastSnapshot
      = some "snaps/2024-01-02 03:04:05.jpg" := by
  have h := get_next_path_spec ⟨2024, 1, 2, 3, 4, 5, 6⟩ ⟨"snaps", 2, none, [], []⟩
    (by decide)
  constructor
  · exact h.2.2.1 ⟨2024, 1, 2, 3, 4, 5, 999⟩ rfl rfl rfl rfl rfl rfl
  · exact h.2.1.trans (congrArg some (by decide))

/-- C7: if the external capture capability fails, the capture action
aborts without performing the retention step and no new artifact
exists: a failing URL fetch (raised before any path is allocated)
leaves the state untouched; a failing camera construction likewise; a
failing camera capture (raised after path allocation) leaves the
directory contents untouched and performs no pruning. -/
theorem capture_failure_skips_prune (now : DateTime) (fails : List String)
    (st : SysState) :
    urlSnapshotCall false now fails st = (some .captureError, st)
    ∧ (∀ capOk, picamSnapshotCall false capOk now fails st = (some .captureError, st))
    ∧ (st.snapshotPath ≠ "" →
        (picamSnapshotCall true false now fails st).1 = some .captureError
        ∧ (picamSnapshotCall true false now fails st).2.baseEntries
            = st.baseEntries) := by
  refine ⟨rfl, fun capOk => rfl, fun hp => ?_⟩
  unfold picamSnapshotCall get_next_path
  rw [get_base_path_ok hp]
  exact ⟨rfl, rfl⟩

/-- Witness for C7: a failed camera capture on a concrete state reports
the capture error and deletes nothing even though three files exceed
the keep count of one. -/
theorem capture_failure_skips_prune_witness :
    (picamSnapshotCall true false ⟨2024, 1, 2, 3, 4, 5, 6⟩ []
      ⟨"snaps", 1, none, [], [⟨"t1", true⟩, ⟨"t2", true⟩, ⟨"t3", true⟩]⟩).1
      = some .captureError
    ∧ (picamSnapshotCall true false ⟨2024, 1, 2, 3, 4, 5, 6⟩ []
      ⟨"snaps", 1, none, [], [⟨"t1", true⟩, ⟨"t2", true⟩, ⟨"t3", true⟩]⟩).2.baseEntries
      = [⟨"t1", true⟩, ⟨"t2", true⟩, ⟨"t3", true⟩] := by
  have h := (capture_failure_skips_prune ⟨2024, 1, 2, 3, 4, 5, 6⟩ []
    ⟨"snaps", 1, none, [], [⟨"t1", true⟩, ⟨"t2", true⟩, ⟨"t3", true⟩]⟩).2.2
    (by decide)
  exact ⟨h.1, h.2⟩

/-- C10 (implicit): `get_next_path` writes the `last_snapshot` slot at
allocation time, and the update is never rolled back: when the camera
capture fails right after allocation, the action reports the capture
error while `last_snapshot` still names the allocated path — at which
no file exists. -/
theorem last_snapshot_not_rolled_back (now : DateTime) (fails : List String)
    (st : SysState) (hp : st.snapshotPath ≠ "")
    (hfresh : ∀ e ∈ st.baseEntries, e.name ≠ snapshotFileName now) :
    (picamSnapshotCall true false now fails st).1 = some .captureError
    ∧ (picamSnapshotCall true false now fails st).2.lastSnapshot
        = some (pathStr (parseComponents st.snapshotPath ++ [snapshotFileName now]))
    ∧ ∀ e ∈ (picamSnapshotCall true false now fails st).2.baseEntries,
        e.name ≠ snapshotFileName now := by
  unfold picamSnapshotCall get_next_path
  rw [get_base_path_ok hp]
  exact ⟨rfl, rfl, hfresh⟩

/-- Witness for C10: after a failed capture on an empty directory,
`last_snapshot` names the allocated path while no file is there. -/
theorem last_snapshot_not_rolled_back_witness :
    (picamSnapshotCall true false ⟨2024, 1, 2, 3, 4, 5, 6⟩ []
      ⟨"snaps", 2, none, [], []⟩).1 = some .captureError
    ∧ (picamSnapshotCall true false ⟨2024, 1, 2, 3, 4, 5, 6⟩ []
      ⟨"snaps", 2, none, [], []⟩).2.lastSnapshot
      = some "snaps/2024-01-02 03:04:05.jpg"
    ∧ (picamSnapshotCall true false ⟨2024, 1, 2, 3, 4, 5, 6⟩ []
      ⟨"snaps", 2, none, [], []⟩).2.baseEntries = [] := by
  have h := last_snapshot_not_rolled_back ⟨2024, 1, 2, 3, 4, 5, 6⟩ []
    ⟨"snaps", 2, none, [], []⟩ (by decide) (by decide)
  exact ⟨h.1, h.2.1.trans (congrArg some (by decide)), by decide⟩

end DoorPi
